import Mathlib

/-!
# Trade analytics engine: a shallow embedding of `src/app.py`

The dashboard in `src/app.py` loads a CSV of closed option trades into a
pandas dataframe, filters it by user-selected criteria, and computes
summary metrics, grouped aggregations, rankings, a delta bias label, and a
CSV export.  This file embeds that analytics core in Lean:

* a dataframe is a `List TradeRecord` (rows in load order);
* floats are modelled as rationals, with the non-finite values the code
  actually produces (`NaN` from pandas `mean`/`median` on empty input,
  `float('inf')` from the profit-factor guard) made explicit in `RVal`;
* pandas `nlargest`/`nsmallest` with the default `keep='first'` are a
  stable sort by the column followed by `take n`; the stable sort is
  Mathlib's `List.insertionSort`;
* pandas `groupby` (default `sort=True`) enumerates the distinct keys in
  ascending order.
-/

namespace OptionDashboard

/-- A timestamp as stored in the `openDate`/`closeDate` columns after
`pd.to_datetime`: a calendar day plus a time-of-day component.  The filter
in `app.py` compares only `.dt.date`, i.e. the `day` field. -/
structure DateTime where
  day : ℤ
  tod : ℚ
deriving DecidableEq, Repr

/-- One row of `trades_with_delta.csv` after `load_data` in `app.py`.
Field names follow the source columns; the source column `type` is a Lean
keyword and is rendered `strategyType`. -/
structure TradeRecord where
  openDate : DateTime
  closeDate : DateTime
  strategyType : String
  symbol : String
  status : String
  quantity : ℤ
  pnl : ℚ
  returnPct : ℚ
  daysInTrade : ℚ
  estimated_delta : ℚ
  delta_category : String
deriving DecidableEq, Repr

/-- The derived column `winning_trade = df['pnl'] > 0` from `load_data`. -/
def winning_trade (r : TradeRecord) : Bool :=
  decide (0 < r.pnl)

/-- The sidebar filter state of `app.py`: each selectbox is either a chosen
value or `'All'` (here `none`), and the date range is applied only when it
has exactly two bounds (here `some (start, end)`), matching
`if len(date_range) == 2`. -/
structure FilterCriteria where
  strategy : Option String
  status : Option String
  symbol : Option String
  dateRange : Option (ℤ × ℤ)
deriving DecidableEq, Repr

/-- `if selected_strategy != 'All': filtered_df = filtered_df[filtered_df['type'] == selected_strategy]` -/
def applyStrategy (c : FilterCriteria) (df : List TradeRecord) : List TradeRecord :=
  match c.strategy with
  | none => df
  | some s => df.filter (fun r => r.strategyType == s)

/-- `if selected_status != 'All': filtered_df = filtered_df[filtered_df['status'] == selected_status]` -/
def applyStatus (c : FilterCriteria) (df : List TradeRecord) : List TradeRecord :=
  match c.status with
  | none => df
  | some s => df.filter (fun r => r.status == s)

/-- `if selected_symbol != 'All': filtered_df = filtered_df[filtered_df['symbol'] == selected_symbol]` -/
def applySymbol (c : FilterCriteria) (df : List TradeRecord) : List TradeRecord :=
  match c.symbol with
  | none => df
  | some s => df.filter (fun r => r.symbol == s)

/-- `filtered_df = filtered_df[(filtered_df['openDate'].dt.date >= date_range[0]) & (filtered_df['openDate'].dt.date <= date_range[1])]`,
guarded by `if len(date_range) == 2`. -/
def applyDateRange (c : FilterCriteria) (df : List TradeRecord) : List TradeRecord :=
  match c.dateRange with
  | none => df
  | some (s, e) => df.filter (fun r => decide (s ≤ r.openDate.day) && decide (r.openDate.day ≤ e))

/-- The full filter pipeline of `app.py` lines 89-100: the four optional
constraints applied in sequence to a copy of the store. -/
def filtered_df (df : List TradeRecord) (c : FilterCriteria) : List TradeRecord :=
  applyDateRange c (applySymbol c (applyStatus c (applyStrategy c df)))

/-- The conjunction of the four constraints as a single predicate on one
record (the specification's reading of `FilterCriteria`: absent constraint
means match-all, present constraints combine with logical AND, the date
range is inclusive at day granularity). -/
def matchesCriteria (c : FilterCriteria) (r : TradeRecord) : Bool :=
  (match c.strategy with | none => true | some s => r.strategyType == s) &&
  (match c.status with | none => true | some s => r.status == s) &&
  (match c.symbol with | none => true | some s => r.symbol == s) &&
  (match c.dateRange with
   | none => true
   | some (s, e) => decide (s ≤ r.openDate.day) && decide (r.openDate.day ≤ e))

/-- The value domain of the metric columns: a float that is NaN (what
pandas `mean`/`median` return on an empty series), positive infinity (the
`float('inf')` branch of the profit-factor guard), or an ordinary finite
number modelled as a rational. -/
inductive RVal where
  | nan : RVal
  | inf : RVal
  | fin : ℚ → RVal
deriving DecidableEq, Repr

/-- `total_pnl = filtered_df['pnl'].sum()`; pandas sum of an empty series is 0. -/
def total_pnl (df : List TradeRecord) : ℚ :=
  (df.map TradeRecord.pnl).sum

/-- `avg_pnl = filtered_df['pnl'].mean()`; pandas mean of an empty series is NaN. -/
def avg_pnl (df : List TradeRecord) : RVal :=
  if df.length = 0 then .nan else .fin (total_pnl df / df.length)

/-- `median_pnl = filtered_df['pnl'].median()`: NaN on an empty series,
otherwise the middle value of the sorted pnl column, averaging the two
middle values when the length is even. -/
def median_pnl (df : List TradeRecord) : RVal :=
  let sorted := List.insertionSort (· ≤ ·) (df.map TradeRecord.pnl)
  if df.length = 0 then .nan
  else if df.length % 2 = 1 then .fin (sorted.getD (df.length / 2) 0)
  else .fin ((sorted.getD (df.length / 2 - 1) 0 + sorted.getD (df.length / 2) 0) / 2)

/-- `win_rate = (filtered_df['pnl'] > 0).sum() / len(filtered_df) * 100 if len(filtered_df) > 0 else 0`. -/
def win_rate (df : List TradeRecord) : RVal :=
  if 0 < df.length then .fin ((df.countP winning_trade : ℚ) / df.length * 100) else .fin 0

/-- `total_trades = len(filtered_df)`. -/
def total_trades (df : List TradeRecord) : ℕ :=
  df.length

/-- `gross_profit = filtered_df[filtered_df['pnl'] > 0]['pnl'].sum()`. -/
def gross_profit (df : List TradeRecord) : ℚ :=
  ((df.filter (fun r => decide (0 < r.pnl))).map TradeRecord.pnl).sum

/-- `gross_loss = abs(filtered_df[filtered_df['pnl'] < 0]['pnl'].sum())`. -/
def gross_loss (df : List TradeRecord) : ℚ :=
  |((df.filter (fun r => decide (r.pnl < 0))).map TradeRecord.pnl).sum|

/-- `profit_factor = gross_profit / gross_loss if gross_loss > 0 else float('inf')`. -/
def profit_factor (df : List TradeRecord) : RVal :=
  if 0 < gross_loss df then .fin (gross_profit df / gross_loss df) else .inf

/-- A concrete record with the given pnl, used by witnesses and
counterexamples; the remaining fields are fixed plausible column values. -/
def mkTrade (p : ℚ) : TradeRecord where
  openDate := ⟨0, 0⟩
  closeDate := ⟨0, 0⟩
  strategyType := "Iron Condor"
  symbol := "SPY"
  status := "closed"
  quantity := 1
  pnl := p
  returnPct := 0
  daysInTrade := 1
  estimated_delta := 0
  delta_category := "Neutral"

/-- Descending-pnl comparison used by `nlargest(10, 'pnl')`. -/
def pnlDesc (a b : TradeRecord) : Prop :=
  b.pnl ≤ a.pnl

/-- Ascending-pnl comparison used by `nsmallest(10, 'pnl')`. -/
def pnlAsc (a b : TradeRecord) : Prop :=
  a.pnl ≤ b.pnl

instance : DecidableRel pnlDesc :=
  fun a b => inferInstanceAs (Decidable (b.pnl ≤ a.pnl))

instance : DecidableRel pnlAsc :=
  fun a b => inferInstanceAs (Decidable (a.pnl ≤ b.pnl))

instance : IsTotal TradeRecord pnlDesc :=
  ⟨fun a b => le_total b.pnl a.pnl⟩

instance : IsTrans TradeRecord pnlDesc :=
  ⟨fun _ _ _ h1 h2 => le_trans h2 h1⟩

instance : IsTotal TradeRecord pnlAsc :=
  ⟨fun a b => le_total a.pnl b.pnl⟩

instance : IsTrans TradeRecord pnlAsc :=
  ⟨fun _ _ _ h1 h2 => le_trans h1 h2⟩

/-- pandas `DataFrame.nlargest(n, 'pnl')` with the default `keep='first'`:
the first `n` rows in descending column order, duplicate column values kept
in original row order — a stable descending sort followed by `head(n)`. -/
def nlargest (n : ℕ) (df : List TradeRecord) : List TradeRecord :=
  (List.insertionSort pnlDesc df).take n

/-- pandas `DataFrame.nsmallest(n, 'pnl')` with the default `keep='first'`. -/
def nsmallest (n : ℕ) (df : List TradeRecord) : List TradeRecord :=
  (List.insertionSort pnlAsc df).take n

/-- `best_trades = filtered_df.nlargest(10, 'pnl')[...]` (the projection to
display columns and the date/percent formatting are presentation only). -/
def best_trades (df : List TradeRecord) : List TradeRecord :=
  nlargest 10 df

/-- `worst_trades = filtered_df.nsmallest(10, 'pnl')[...]`. -/
def worst_trades (df : List TradeRecord) : List TradeRecord :=
  nsmallest 10 df

/-- Strict lexicographic comparison of two strings as lists of characters,
by Unicode code point — the order Python (and hence pandas `groupby`) uses
on `str` keys. -/
def strLtB : List Char → List Char → Bool
  | [], [] => false
  | [], _ :: _ => true
  | _ :: _, [] => false
  | a :: as, b :: bs =>
    if a.toNat < b.toNat then true
    else if b.toNat < a.toNat then false
    else strLtB as bs

/-- Strict string order by code point. -/
def strLt (a b : String) : Prop :=
  strLtB a.data b.data = true

/-- Reflexive string order by code point. -/
def strLe (a b : String) : Prop :=
  strLt a b ∨ a = b

instance : DecidableRel strLt :=
  fun a b => inferInstanceAs (Decidable (strLtB a.data b.data = true))

instance : DecidableRel strLe :=
  fun a b => inferInstanceAs (Decidable (strLt a b ∨ a = b))

instance : IsTrans String strLt :=
  ⟨by
    have H : ∀ as bs cs : List Char, strLtB as bs = true → strLtB bs cs = true →
        strLtB as cs = true := by
      intro as
      induction as with
      | nil =>
        intro bs cs h1 h2
        cases bs with
        | nil => simp [strLtB] at h1
        | cons b bs' =>
          cases cs with
          | nil => simp [strLtB] at h2
          | cons c cs' => simp [strLtB]
      | cons a as' ih =>
        intro bs cs h1 h2
        cases bs with
        | nil => simp [strLtB] at h1
        | cons b bs' =>
          cases cs with
          | nil => simp [strLtB] at h2
          | cons c cs' =>
            simp only [strLtB] at h1 h2 ⊢
            split_ifs at h1 h2 ⊢ <;>
              first
                | rfl
                | exact ih _ _ h1 h2
                | omega
    intro a b c hab hbc
    exact H a.data b.data c.data hab hbc⟩

instance : IsTrans String strLe :=
  ⟨by
    intro a b c hab hbc
    rcases hab with hab | rfl
    · rcases hbc with hbc | rfl
      · exact Or.inl (trans_of strLt hab hbc)
      · exact Or.inl hab
    · exact hbc⟩

instance : IsTotal String strLe :=
  ⟨by
    have H : ∀ as bs : List Char, strLtB as bs = true ∨ strLtB bs as = true ∨ as = bs := by
      intro as
      induction as with
      | nil =>
        intro bs
        cases bs with
        | nil => right; right; rfl
        | cons b bs' => left; simp [strLtB]
      | cons a as' ih =>
        intro bs
        cases bs with
        | nil => right; left; simp [strLtB]
        | cons b bs' =>
          rcases Nat.lt_trichotomy a.toNat b.toNat with h | h | h
          · left; simp [strLtB, h]
          · have hab : a = b := Char.eq_of_val_eq (UInt32.ext h)
            subst hab
            rcases ih bs' with h1 | h1 | h1
            · left; simp [strLtB, h1]
            · right; left; simp [strLtB, h1]
            · right; right; rw [h1]
          · right; left; simp [strLtB, h]
    intro a b
    rcases H a.data b.data with h | h | h
    · exact Or.inl (Or.inl h)
    · exact Or.inr (Or.inl h)
    · exact Or.inl (Or.inr (String.ext h))⟩

/-- One row of a single-key `groupby(key).agg(...)` table, reduced to the
group key and its `Total_PnL` aggregate (`('pnl', 'sum')`); the further
aggregate columns (mean, median, count, win rate, ...) play no role in the
ordering claims and are omitted.  pandas `groupby` with the default
`sort=True` enumerates the distinct keys in ascending order. -/
def groupTotals (key : TradeRecord → String) (df : List TradeRecord) : List (String × ℚ) :=
  (List.insertionSort strLe (df.map key).dedup).map
    (fun k => (k, total_pnl (df.filter (fun r => key r == k))))

/-- Descending order on the `Total_PnL` column of a grouped table, the
comparison behind `sort_values('Total_PnL', ascending=False)`. -/
def byTotalDesc (a b : String × ℚ) : Prop :=
  b.2 ≤ a.2

instance : DecidableRel byTotalDesc :=
  fun a b => inferInstanceAs (Decidable (b.2 ≤ a.2))

instance : IsTotal (String × ℚ) byTotalDesc :=
  ⟨fun a b => le_total b.2 a.2⟩

instance : IsTrans (String × ℚ) byTotalDesc :=
  ⟨fun _ _ _ h1 h2 => le_trans h2 h1⟩

/-- `strategy_stats = filtered_df.groupby('type').agg(...)` followed by
`strategy_stats.sort_values('Total_PnL', ascending=False)`. -/
def strategy_stats (df : List TradeRecord) : List (String × ℚ) :=
  List.insertionSort byTotalDesc (groupTotals TradeRecord.strategyType df)

/-- `status_stats = filtered_df.groupby('status').agg(...)`: no
`sort_values` call follows, so the rows stay in ascending key order. -/
def status_stats (df : List TradeRecord) : List (String × ℚ) :=
  groupTotals TradeRecord.status df

/-- `symbol_stats = filtered_df.groupby('symbol').agg(...)` followed by
`symbol_stats.sort_values('Total_PnL', ascending=False)`. -/
def symbol_stats (df : List TradeRecord) : List (String × ℚ) :=
  List.insertionSort byTotalDesc (groupTotals TradeRecord.symbol df)

/-- `delta_perf = filtered_df.groupby('delta_category').agg(...)`: no
`sort_values` call follows. -/
def delta_perf (df : List TradeRecord) : List (String × ℚ) :=
  groupTotals TradeRecord.delta_category df

/-- Ascending lexicographic order on the two-level `(type, status)` group
key of a pandas two-key `groupby`, comparing the string components by code
point as Python tuple comparison does. -/
def pairKeyLe (a b : String × String) : Prop :=
  strLt a.1 b.1 ∨ (a.1 = b.1 ∧ strLe a.2 b.2)

instance : DecidableRel pairKeyLe :=
  fun a b => inferInstanceAs (Decidable (strLt a.1 b.1 ∨ (a.1 = b.1 ∧ strLe a.2 b.2)))

instance : IsTrans (String × String) pairKeyLe :=
  ⟨by
    intro a b c hab hbc
    rcases hab with h1 | ⟨e1, l1⟩
    · rcases hbc with h2 | ⟨e2, _⟩
      · exact Or.inl (trans_of strLt h1 h2)
      · exact Or.inl (e2 ▸ h1)
    · rcases hbc with h2 | ⟨e2, l2⟩
      · exact Or.inl (e1 ▸ h2)
      · exact Or.inr ⟨e1.trans e2, trans_of strLe l1 l2⟩⟩

instance : IsTotal (String × String) pairKeyLe :=
  ⟨by
    intro a b
    rcases total_of strLe a.1 b.1 with h | h
    · rcases h with h | h
      · exact Or.inl (Or.inl h)
      · rcases total_of strLe a.2 b.2 with h2 | h2
        · exact Or.inl (Or.inr ⟨h, h2⟩)
        · exact Or.inr (Or.inr ⟨h.symm, h2⟩)
    · rcases h with h | h
      · exact Or.inr (Or.inl h)
      · rcases total_of strLe a.2 b.2 with h2 | h2
        · exact Or.inl (Or.inr ⟨h.symm, h2⟩)
        · exact Or.inr (Or.inr ⟨h, h2⟩)⟩

/-- `status_strategy = filtered_df.groupby(['type', 'status']).agg(...)`,
reduced as in `groupTotals`: rows in ascending lexicographic key order (no
`sort_values` call follows in the source). -/
def status_strategy (df : List TradeRecord) : List ((String × String) × ℚ) :=
  (List.insertionSort pairKeyLe (df.map (fun r => (r.strategyType, r.status))).dedup).map
    (fun k => (k, total_pnl (df.filter (fun r => r.strategyType == k.1 && r.status == k.2))))

/-- `total_delta = filtered_df['estimated_delta'].sum()`. -/
def total_delta (df : List TradeRecord) : ℚ :=
  (df.map TradeRecord.estimated_delta).sum

/-- `bias = "Bullish" if total_delta > 50 else "Bearish" if total_delta < -50 else "Neutral"`
(`app.py` line 654; the literal 50 appears inline in this expression). -/
def bias (df : List TradeRecord) : String :=
  if 50 < total_delta df then "Bullish"
  else if total_delta df < -50 then "Bearish"
  else "Neutral"

/-- numpy/pandas rounding to the nearest integer with ties to even, the
rule behind `Series.round`. -/
def roundHalfEven (x : ℚ) : ℤ :=
  if x - ⌊x⌋ < 1 / 2 then ⌊x⌋
  else if 1 / 2 < x - ⌊x⌋ then ⌊x⌋ + 1
  else if 2 ∣ ⌊x⌋ then ⌊x⌋ else ⌊x⌋ + 1

/-- `Series.round(2)`: rounding to two decimal places, ties to even. -/
def round2dp (x : ℚ) : ℚ :=
  (roundHalfEven (x * 100) : ℚ) / 100

/-- The effect of the trade-log export on one record's stored fields:
`display_df` keeps all eleven stored columns, rewrites both dates with
`dt.strftime('%Y-%m-%d')` (dropping the time of day), and replaces
`returnPct` by `(returnPct * 100).round(2)`; writing that frame with
`to_csv` and reparsing the file yields these values back (numbers
round-trip exactly in the rational model). -/
def export_reload (r : TradeRecord) : TradeRecord :=
  { r with
    openDate := ⟨r.openDate.day, 0⟩
    closeDate := ⟨r.closeDate.day, 0⟩
    returnPct := round2dp (r.returnPct * 100) }

/-- The date normalization the round-trip claim allows: time of day is
dropped, everything else is untouched. -/
def normalizeDates (r : TradeRecord) : TradeRecord :=
  { r with openDate := ⟨r.openDate.day, 0⟩, closeDate := ⟨r.closeDate.day, 0⟩ }

/-- No tie in the pnl column at the best-10 selection boundary: positions 9
and 10 of the descending sort differ (or position 10 does not exist). -/
def bestBoundaryTieFree (df : List TradeRecord) : Prop :=
  ((List.insertionSort pnlDesc df).map TradeRecord.pnl)[9]? ≠
    ((List.insertionSort pnlDesc df).map TradeRecord.pnl)[10]?

/-- No tie in the pnl column at the worst-10 selection boundary. -/
def worstBoundaryTieFree (df : List TradeRecord) : Prop :=
  ((List.insertionSort pnlAsc df).map TradeRecord.pnl)[9]? ≠
    ((List.insertionSort pnlAsc df).map TradeRecord.pnl)[10]?

/-- Twenty trades with pairwise distinct pnl values 0, 1, ..., 19. -/
def ex20 : List TradeRecord :=
  [mkTrade 0, mkTrade 1, mkTrade 2, mkTrade 3, mkTrade 4, mkTrade 5, mkTrade 6, mkTrade 7, mkTrade 8, mkTrade 9, mkTrade 10, mkTrade 11, mkTrade 12, mkTrade 13, mkTrade 14, mkTrade 15, mkTrade 16, mkTrade 17, mkTrade 18, mkTrade 19]

/-- Two trades whose status groups come out in ascending key order but not
in descending Total_PnL order. -/
def exStatus : List TradeRecord :=
  [mkTrade (-100), { mkTrade 50 with status := "expired" }]

/-- Three trades with a pnl tie between the first and the last. -/
def exTie : List TradeRecord :=
  [mkTrade 5, mkTrade 7, { mkTrade 5 with symbol := "QQQ" }]

/-- A single winning trade: zero gross loss with positive gross profit. -/
def exWin : List TradeRecord :=
  [mkTrade 100]

/-- One winning and one losing trade. -/
def exMix : List TradeRecord :=
  [mkTrade 100, mkTrade (-50)]

/-- Filter criteria whose date range is reversed (start 5 after end 3). -/
def cRev : FilterCriteria :=
  { strategy := none, status := none, symbol := none, dateRange := some (5, 3) }

/-- A trade with a 12% fractional return. -/
def rRet : TradeRecord :=
  { mkTrade 100 with returnPct := 12 / 100 }

/-! ## Theorems -/

/-- A list of strictly negative rationals with at least one element has a
strictly negative sum. -/
theorem sum_neg_of_all_neg :
    ∀ l : List ℚ, (∀ x ∈ l, x < 0) → l ≠ [] → l.sum < 0 := by
  intro l
  induction l with
  | nil => intro _ h; exact absurd rfl h
  | cons x t ih =>
    intro hall _
    rcases eq_or_ne t [] with rfl | ht
    · simpa using hall x (by simp)
    · have hx := hall x (by simp)
      have hts := ih (fun y hy => hall y (by simp [hy])) ht
      simp only [List.sum_cons]
      linarith

/--
C1 counterexample.  The claim reads: on the empty subset, `avgPnl`,
`medianPnl`, `winRate` and `profitFactor` all come back as an explicit
"no data" indicator (`NaN` being the only such value in the float model),
with `totalTrades = 0` and `totalPnl = 0`.  This is false of the code: the
`if len(filtered_df) > 0 else 0` guard makes `win_rate` the ordinary
number `0`, and the `gross_loss > 0` guard makes `profit_factor` positive
infinity — neither is a "no data" marker.
-/
theorem c1_counterexample :
    ¬ (avg_pnl [] = RVal.nan ∧ median_pnl [] = RVal.nan ∧ win_rate [] = RVal.nan ∧
        profit_factor [] = RVal.nan ∧ total_trades [] = 0 ∧ total_pnl [] = 0) := by
  intro h
  have hw := h.2.2.1
  simp [win_rate] at hw

/--
C1, amended.  On the empty subset the metrics computation raises nothing
and divides by nothing: `totalTrades = 0`, `totalPnl = 0`, `avgPnl` and
`medianPnl` are NaN (pandas' no-data marker), but `winRate` is the plain
number `0` and `profitFactor` is positive infinity.
-/
theorem c1_empty_subset_metrics :
    avg_pnl [] = RVal.nan ∧ median_pnl [] = RVal.nan ∧ win_rate [] = RVal.fin 0 ∧
      profit_factor [] = RVal.inf ∧ total_trades [] = 0 ∧ total_pnl [] = 0 := by
  refine ⟨by simp [avg_pnl], by simp [median_pnl], by simp [win_rate], ?_, rfl, rfl⟩
  simp [profit_factor, gross_loss]

/--
C2.  `profit_factor` is positive infinity whenever the gross loss is zero
(also when the gross profit is zero too, as in the empty subset), and is
the quotient `gross_profit / gross_loss` whenever the gross loss is
positive; moreover the gross loss vanishes exactly when no record of the
subset has negative pnl.
-/
theorem c2_profit_factor (df : List TradeRecord) :
    (gross_loss df = 0 → profit_factor df = RVal.inf) ∧
      (0 < gross_loss df → profit_factor df = RVal.fin (gross_profit df / gross_loss df)) ∧
      (gross_loss df = 0 ↔ ∀ r ∈ df, ¬ r.pnl < 0) := by
  refine ⟨fun h => by simp [profit_factor, h], fun h => by simp [profit_factor, h], ?_, ?_⟩
  · intro h0 r hr hneg
    have hmem : r ∈ df.filter (fun r => decide (r.pnl < 0)) :=
      List.mem_filter.mpr ⟨hr, by simpa using hneg⟩
    have hne : (df.filter (fun r => decide (r.pnl < 0))).map TradeRecord.pnl ≠ [] := by
      simp only [ne_eq, List.map_eq_nil_iff]
      intro hnil
      rw [hnil] at hmem
      simp at hmem
    have hall : ∀ x ∈ (df.filter (fun r => decide (r.pnl < 0))).map TradeRecord.pnl, x < 0 := by
      intro x hx
      rcases List.mem_map.mp hx with ⟨s, hs, rfl⟩
      simpa using (List.mem_filter.mp hs).2
    have := sum_neg_of_all_neg _ hall hne
    rw [gross_loss, abs_of_neg this] at h0
    linarith
  · intro hpos
    have hnil : df.filter (fun r => decide (r.pnl < 0)) = [] := by
      apply List.filter_eq_nil_iff.mpr
      intro r hr
      simpa using hpos r hr
    simp [gross_loss, hnil]

/-- Witness for C2 at two concrete subsets: one winning trade (zero gross
loss, infinite profit factor) and a 100/−50 pair (positive gross loss,
finite quotient 2). -/
theorem c2_profit_factor_witness :
    profit_factor exWin = RVal.inf ∧
      profit_factor exMix = RVal.fin (gross_profit exMix / gross_loss exMix) ∧
      gross_loss exWin = 0 ∧ gross_loss exMix = 50 ∧
      gross_profit exMix / gross_loss exMix = 2 := by
  have hw : gross_loss exWin = 0 := by
    norm_num [gross_loss, exWin, mkTrade, List.filter]
  have hm : gross_loss exMix = 50 := by
    norm_num [gross_loss, exMix, mkTrade, List.filter]
  have hgp : gross_profit exMix = 100 := by
    norm_num [gross_profit, exMix, mkTrade, List.filter]
  exact ⟨(c2_profit_factor exWin).1 hw,
    (c2_profit_factor exMix).2.1 (by rw [hm]; norm_num),
    hw, hm, by rw [hm, hgp]; norm_num⟩

/--
C9.  Whenever the date-range constraint is present with a reversed
interval (start strictly after end), the filter pipeline returns the empty
subset — the two inclusive day-granularity comparisons cannot both hold —
and no error is raised (the embedding is a total function).
-/
theorem c9_reversed_range (df : List TradeRecord) (c : FilterCriteria) (s e : ℤ)
    (hr : c.dateRange = some (s, e)) (hlt : e < s) :
    filtered_df df c = [] := by
  unfold filtered_df applyDateRange
  rw [hr]
  apply List.filter_eq_nil_iff.mpr
  intro r _
  simp only [Bool.and_eq_true, decide_eq_true_eq, not_and]
  intro h1 h2
  omega

/-- Witness for C9: a reversed range `[5, 3]` on a one-record store. -/
theorem c9_reversed_range_witness :
    cRev.dateRange = some (5, 3) ∧ (3 : ℤ) < 5 ∧ filtered_df [mkTrade 1] cRev = [] :=
  ⟨rfl, by decide, c9_reversed_range [mkTrade 1] cRev 5 3 rfl (by decide)⟩

/-- The signed sum of the pnl column splits into the positive part and the
(signed, nonpositive) negative part. -/
theorem total_pnl_split (df : List TradeRecord) :
    total_pnl df =
      gross_profit df + ((df.filter (fun r => decide (r.pnl < 0))).map TradeRecord.pnl).sum := by
  induction df with
  | nil => simp [total_pnl, gross_profit]
  | cons r t ih =>
    rcases lt_trichotomy r.pnl 0 with h | h | h
    · have h' : ¬ 0 < r.pnl := not_lt.mpr h.le
      simp only [total_pnl, gross_profit, List.map_cons, List.sum_cons, List.filter_cons,
        decide_eq_true_eq, h, h', if_true, if_false, ite_true, ite_false] at ih ⊢
      rw [ih]
      ring
    · simp only [total_pnl, gross_profit, List.map_cons, List.sum_cons, List.filter_cons,
        decide_eq_true_eq, h] at ih ⊢
      simpa using ih
    · have h' : ¬ r.pnl < 0 := not_lt.mpr h.le
      simp only [total_pnl, gross_profit, List.map_cons, List.sum_cons, List.filter_cons,
        decide_eq_true_eq, h, h', ite_true, ite_false] at ih ⊢
      rw [ih]
      ring

/-- The negative part of the pnl column has a nonpositive sum. -/
theorem neg_part_nonpos (df : List TradeRecord) :
    ((df.filter (fun r => decide (r.pnl < 0))).map TradeRecord.pnl).sum ≤ 0 := by
  induction df with
  | nil => simp
  | cons r t ih =>
    rw [List.filter_cons]
    by_cases h : r.pnl < 0
    · rw [if_pos (by simpa using h)]
      simp only [List.map_cons, List.sum_cons]
      linarith
    · rw [if_neg (by simpa using h)]
      exact ih

/--
C10.  For every subset, including the empty one, `total_pnl` equals
`gross_profit - gross_loss`: records with pnl exactly 0 contribute to
neither gross figure, and the identity still holds.
-/
theorem c10_totals_identity (df : List TradeRecord) :
    total_pnl df = gross_profit df - gross_loss df := by
  rw [total_pnl_split df, gross_loss,
    abs_of_nonpos (neg_part_nonpos df)]
  ring

/--
C3.  The sequential filter pipeline computes exactly the single-pass
filter by the conjunction of the four optional constraints: the result is
a sublist of the store (original relative order, no duplication beyond the
store's own), and a record occurs in it exactly as often as it occurs in
the store when it satisfies the criteria, never otherwise.
-/
theorem c3_filter_soundness (df : List TradeRecord) (c : FilterCriteria) :
    filtered_df df c = df.filter (matchesCriteria c) ∧
      (filtered_df df c).Sublist df ∧
      (∀ r, r ∈ filtered_df df c ↔ r ∈ df ∧ matchesCriteria c r = true) ∧
      (∀ r, (filtered_df df c).count r =
        if matchesCriteria c r = true then df.count r else 0) := by
  have h1 : ∀ l, applyStrategy c l =
      l.filter (fun r => match c.strategy with | none => true | some s => r.strategyType == s) :=
    fun l => by cases hc : c.strategy <;> simp [applyStrategy, hc]
  have h2 : ∀ l, applyStatus c l =
      l.filter (fun r => match c.status with | none => true | some s => r.status == s) :=
    fun l => by cases hc : c.status <;> simp [applyStatus, hc]
  have h3 : ∀ l, applySymbol c l =
      l.filter (fun r => match c.symbol with | none => true | some s => r.symbol == s) :=
    fun l => by cases hc : c.symbol <;> simp [applySymbol, hc]
  have h4 : ∀ l, applyDateRange c l =
      l.filter (fun r => match c.dateRange with
        | none => true
        | some (s, e) => decide (s ≤ r.openDate.day) && decide (r.openDate.day ≤ e)) :=
    fun l => by
      rcases hc : c.dateRange with _ | ⟨s, e⟩ <;> simp [applyDateRange, hc]
  have heq : filtered_df df c = df.filter (matchesCriteria c) := by
    rw [filtered_df, h4, h3, h2, h1, List.filter_filter, List.filter_filter,
      List.filter_filter]
    exact List.filter_congr fun r _ => by
      simp [matchesCriteria, Bool.and_assoc, Bool.and_comm, Bool.and_left_comm]
  refine ⟨heq, ?_, ?_, ?_⟩
  · rw [heq]
    exact List.filter_sublist df
  · intro r
    rw [heq]
    exact List.mem_filter
  · intro r
    rw [heq]
    by_cases h : matchesCriteria c r = true
    · rw [if_pos h]
      exact List.count_filter h
    · rw [if_neg h, List.count_eq_zero]
      intro hmem
      exact h (List.mem_filter.mp hmem).2

/--
C6 counterexample.  The claim reads: reloading the exported CSV reproduces
every stored field value exactly (dates up to day normalization, the two
derived columns excepted).  This fails on `returnPct`: the export writes
`(returnPct * 100).round(2)`, so a trade stored with fractional return
`0.12` comes back as `12`.
-/
theorem c6_counterexample :
    export_reload rRet ≠ normalizeDates rRet ∧
      (export_reload rRet).returnPct = 12 ∧ (normalizeDates rRet).returnPct = 12 / 100 := by
  have h : (export_reload rRet).returnPct = 12 := by
    show round2dp ((12 : ℚ) / 100 * 100) = 12
    norm_num [round2dp, roundHalfEven]
  refine ⟨?_, h, rfl⟩
  intro heq
  have h2 := congrArg TradeRecord.returnPct heq
  rw [h] at h2
  have h3 : (normalizeDates rRet).returnPct = 12 / 100 := rfl
  rw [h3] at h2
  norm_num at h2

/--
C6, amended.  The export/reload round trip is the identity on every stored
field of every record of the subset, with two exceptions forced by the
display formatting: the dates are normalized to day granularity (as the
claim already allows) and `returnPct` comes back as its percentage value,
`(returnPct * 100)` rounded to two decimal places — not the stored
fraction.
-/
theorem c6_round_trip (r : TradeRecord) :
    export_reload r = { normalizeDates r with returnPct := round2dp (100 * r.returnPct) } := by
  simp only [export_reload, normalizeDates, mul_comm]

/-- The delta bias label of `app.py` line 654 as a three-way
classification: `Bullish` exactly above 50, `Bearish` exactly below −50,
`Neutral` exactly on the closed band in between.  (The threshold 50 is the
inline literal of that source line.) -/
theorem bias_classification (df : List TradeRecord) :
    (bias df = "Bullish" ↔ 50 < total_delta df) ∧
      (bias df = "Bearish" ↔ total_delta df < -50) ∧
      (bias df = "Neutral" ↔ -50 ≤ total_delta df ∧ total_delta df ≤ 50) := by
  unfold bias
  by_cases h1 : 50 < total_delta df
  · have h2 : ¬ total_delta df < -50 := by linarith
    simp [h1, h2]
  · by_cases h2 : total_delta df < -50
    · simp [h1, h2]
    · simp [h1, h2]
      constructor <;> linarith

/--
C5 counterexample.  The claim reads: every grouped table (including the
one grouped by `status`) is presented in descending order of the group's
total pnl.  On a store whose `closed` group loses 100 and whose `expired`
group gains 50, the status table comes out `[closed → -100, expired → 50]`
(ascending key order, the pandas `groupby` default), which is not
descending by total pnl — no `sort_values` call follows the `status`
grouping in the source.
-/
theorem c5_counterexample :
    status_stats exStatus = [("closed", -100), ("expired", 50)] ∧
      ¬ List.Pairwise byTotalDesc (status_stats exStatus) := by
  have h1 : List.insertionSort strLe ((exStatus.map TradeRecord.status).dedup) =
      ["closed", "expired"] := rfl
  have heval : status_stats exStatus = [("closed", -100), ("expired", 50)] := by
    rw [status_stats, groupTotals, h1]
    have h2 : exStatus.filter (fun r => TradeRecord.status r == "closed") =
        [mkTrade (-100)] := rfl
    have h3 : exStatus.filter (fun r => TradeRecord.status r == "expired") =
        [{ mkTrade 50 with status := "expired" }] := rfl
    simp only [List.map_cons, List.map_nil, h2, h3]
    norm_num [total_pnl, mkTrade]
  refine ⟨heval, ?_⟩
  rw [heval]
  intro hp
  have h4 := (List.pairwise_cons.mp hp).1 ("expired", 50) (by simp)
  simp only [byTotalDesc] at h4
  norm_num at h4

/--
C5, amended.  Only the groupings that the source follows with
`sort_values('Total_PnL', ascending=False)` — by `strategyType` and by
`symbol` — are presented in descending order of the group's total pnl.
The groupings by `status`, by `deltaCategory`, and by the two-key
`strategyType × status` combination have no such call and are presented in
ascending (lexicographic) key order, the pandas `groupby` default.
-/
theorem c5_group_order (df : List TradeRecord) :
    List.Pairwise byTotalDesc (strategy_stats df) ∧
      List.Pairwise byTotalDesc (symbol_stats df) ∧
      List.Pairwise (fun a b : String × ℚ => strLe a.1 b.1) (status_stats df) ∧
      List.Pairwise (fun a b : String × ℚ => strLe a.1 b.1) (delta_perf df) ∧
      List.Pairwise (fun a b : (String × String) × ℚ => pairKeyLe a.1 b.1)
        (status_strategy df) := by
  refine ⟨List.sorted_insertionSort byTotalDesc _, List.sorted_insertionSort byTotalDesc _,
    ?_, ?_, ?_⟩
  · exact List.pairwise_map.mpr (List.sorted_insertionSort strLe _)
  · exact List.pairwise_map.mpr (List.sorted_insertionSort strLe _)
  · exact List.pairwise_map.mpr (List.sorted_insertionSort pairKeyLe _)

/-- In a duplicate-free list, a two-element sublist whose later element
falls inside the `n`-prefix is itself a sublist of that prefix. -/
theorem pair_sublist_take {α : Type} {a b : α} :
    ∀ {l : List α} {n : ℕ}, l.Nodup → [a, b].Sublist l → b ∈ l.take n →
      [a, b].Sublist (l.take n) := by
  intro l
  induction l with
  | nil =>
    intro n _ h _
    simp at h
  | cons x t ih =>
    intro n hnd h hb
    cases n with
    | zero => simp at hb
    | succ k =>
      rw [List.take_succ_cons] at hb ⊢
      cases h with
      | cons _ h' =>
        rcases List.mem_cons.mp hb with rfl | hbt
        · have hbmem : b ∈ t := h'.subset (by simp)
          exact absurd hbmem (List.nodup_cons.mp hnd).1
        · exact List.Sublist.cons x (ih (List.nodup_cons.mp hnd).2 h' hbt)
      | cons₂ _ h' =>
        have hbt' : b ∈ t := h'.subset (by simp)
        have hne : b ≠ a := by
          rintro rfl
          exact (List.nodup_cons.mp hnd).1 hbt'
        rcases List.mem_cons.mp hb with h'' | hbt
        · exact absurd h'' hne
        · exact List.Sublist.cons₂ a (List.singleton_sublist.mpr hbt)

/--
C4.  `nlargest`/`nsmallest` (the engine behind the best-10/worst-10
tables) return at most `n` records, sorted by descending respectively
ascending pnl; the records kept are the `n` with the largest respectively
smallest pnl (every kept record's pnl bounds every dropped record's pnl);
ties are broken by preserving original store order — if two
distinguishable records tie on pnl and the later one is selected, the
earlier one is selected too and stays first; the computation is a pure
function, so two calls on identical input agree definitionally; and a
subset shorter than `n` is returned whole (as a permutation, in sorted
order), not an error.
-/
theorem c4_ranking (df : List TradeRecord) (n : ℕ) :
    (nlargest n df).length ≤ n ∧
      (nsmallest n df).length ≤ n ∧
      List.Pairwise pnlDesc (nlargest n df) ∧
      List.Pairwise pnlAsc (nsmallest n df) ∧
      (∃ rest, df.Perm (nlargest n df ++ rest) ∧
        ∀ a ∈ nlargest n df, ∀ b ∈ rest, b.pnl ≤ a.pnl) ∧
      (∃ rest, df.Perm (nsmallest n df ++ rest) ∧
        ∀ a ∈ nsmallest n df, ∀ b ∈ rest, a.pnl ≤ b.pnl) ∧
      (df.Nodup → ∀ a b, [a, b].Sublist df → a.pnl = b.pnl →
        (b ∈ nlargest n df → [a, b].Sublist (nlargest n df)) ∧
        (b ∈ nsmallest n df → [a, b].Sublist (nsmallest n df))) ∧
      nlargest n df = nlargest n df ∧
      (df.length < n → df.Perm (nlargest n df) ∧ df.Perm (nsmallest n df)) := by
  have hsortD := List.sorted_insertionSort pnlDesc df
  have hsortA := List.sorted_insertionSort pnlAsc df
  have hpermD := List.perm_insertionSort pnlDesc df
  have hpermA := List.perm_insertionSort pnlAsc df
  refine ⟨?_, ?_, ?_, ?_, ?_, ?_, ?_, rfl, ?_⟩
  · rw [nlargest, List.length_take]
    exact min_le_left _ _
  · rw [nsmallest, List.length_take]
    exact min_le_left _ _
  · exact List.Pairwise.sublist (List.take_sublist _ _) hsortD
  · exact List.Pairwise.sublist (List.take_sublist _ _) hsortA
  · refine ⟨(List.insertionSort pnlDesc df).drop n, ?_, ?_⟩
    · rw [nlargest, List.take_append_drop]
      exact hpermD.symm
    · have h := hsortD
      rw [← List.take_append_drop n (List.insertionSort pnlDesc df)] at h
      exact (List.pairwise_append.mp h).2.2
  · refine ⟨(List.insertionSort pnlAsc df).drop n, ?_, ?_⟩
    · rw [nsmallest, List.take_append_drop]
      exact hpermA.symm
    · have h := hsortA
      rw [← List.take_append_drop n (List.insertionSort pnlAsc df)] at h
      exact (List.pairwise_append.mp h).2.2
  · intro hnd a b hab hpnl
    constructor
    · intro hb
      exact pair_sublist_take (hpermD.nodup_iff.mpr hnd)
        (List.pair_sublist_insertionSort (le_of_eq hpnl.symm) hab) hb
    · intro hb
      exact pair_sublist_take (hpermA.nodup_iff.mpr hnd)
        (List.pair_sublist_insertionSort (le_of_eq hpnl) hab) hb
  · intro hlt
    constructor
    · rw [nlargest, List.take_of_length_le (by rw [List.length_insertionSort]; omega)]
      exact hpermD.symm
    · rw [nsmallest, List.take_of_length_le (by rw [List.length_insertionSort]; omega)]
      exact hpermA.symm

/-- Witness for C4 on the three-trade store `exTie` (pnl 5, 7, 5 with the
two 5s distinguishable by symbol): the best-2 table is `[7, 5]` keeping the
first-seen 5; with `n = 3` the tied pair is selected in store order; and
with `n = 4 > 3` the whole store is returned. -/
theorem c4_ranking_witness :
    nlargest 2 exTie = [mkTrade 7, mkTrade 5] ∧
      exTie.Nodup ∧
      [mkTrade 5, { mkTrade 5 with symbol := "QQQ" }].Sublist exTie ∧
      (mkTrade 5).pnl = ({ mkTrade 5 with symbol := "QQQ" } : TradeRecord).pnl ∧
      ({ mkTrade 5 with symbol := "QQQ" } : TradeRecord) ∈ nlargest 3 exTie ∧
      [mkTrade 5, { mkTrade 5 with symbol := "QQQ" }].Sublist (nlargest 3 exTie) ∧
      exTie.length < 4 ∧
      exTie.Perm (nlargest 4 exTie) := by
  have hsort : List.insertionSort pnlDesc exTie =
      [mkTrade 7, mkTrade 5, { mkTrade 5 with symbol := "QQQ" }] := by
    norm_num [exTie, List.insertionSort, List.orderedInsert, pnlDesc, mkTrade]
  have hnd : exTie.Nodup := by
    norm_num [exTie, mkTrade]
    decide
  have hsub : [mkTrade 5, { mkTrade 5 with symbol := "QQQ" }].Sublist exTie :=
    List.Sublist.cons₂ _ (List.Sublist.cons _ (List.Sublist.cons₂ _ List.Sublist.slnil))
  have hmem : ({ mkTrade 5 with symbol := "QQQ" } : TradeRecord) ∈ nlargest 3 exTie := by
    rw [nlargest, hsort]
    exact List.mem_cons_of_mem _ (List.mem_cons_of_mem _ (List.mem_cons_self _ _))
  refine ⟨?_, hnd, hsub, rfl, hmem, ?_, by decide, ?_⟩
  · rw [nlargest, hsort]
    rfl
  · exact ((c4_ranking exTie 3).2.2.2.2.2.2.1 hnd _ _ hsub rfl).1 hmem
  · exact ((c4_ranking exTie 4).2.2.2.2.2.2.2.2 (by decide)).1

/-- An element failing a Boolean predicate keeps the predicate's count
strictly below the list length. -/
theorem countP_lt_length_of_mem {α : Type} {l : List α} {a : α} {p : α → Bool}
    (ha : a ∈ l) (hpa : p a = false) : List.countP p l < l.length := by
  induction l with
  | nil => cases ha
  | cons x t ih =>
    rw [List.countP_cons, List.length_cons]
    rcases List.mem_cons.mp ha with rfl | hat
    · have h1 := @List.countP_le_length _ p t
      rw [hpa, if_neg (by simp)]
      omega
    · have h1 := ih hat
      split <;> omega

/-- If `a` sits inside the `k`-prefix of a list sorted by `R`, a predicate
that fails on `a` and on everything `R`-below `a` holds on fewer than `k`
elements of the whole list. -/
theorem countP_lt_of_sorted_take {α : Type} {R : α → α → Prop}
    {l : List α} (hs : List.Pairwise R l) {k : ℕ} {a : α} (ha : a ∈ l.take k)
    {p : α → Bool} (hpa : p a = false) (himp : ∀ y, R a y → p y = false) :
    List.countP p l < k := by
  have hsplit : List.take k l ++ List.drop k l = l := List.take_append_drop k l
  have hs' : List.Pairwise R (List.take k l ++ List.drop k l) := by rw [hsplit]; exact hs
  have hcross := (List.pairwise_append.mp hs').2.2
  have hdrop : List.countP p (List.drop k l) = 0 :=
    List.countP_eq_zero.mpr (fun y hy => by rw [himp y (hcross a ha y hy)]; simp)
  have htake : List.countP p (List.take k l) < (List.take k l).length :=
    countP_lt_length_of_mem ha hpa
  have hlen : (List.take k l).length ≤ k := by
    rw [List.length_take]
    exact min_le_left _ _
  have hcnt : List.countP p l = List.countP p (List.take k l) + List.countP p (List.drop k l) := by
    rw [← List.countP_append, hsplit]
  omega

/-- A list each of whose elements satisfies one of two Boolean predicates
is no longer than the two predicate counts combined. -/
theorem length_le_countP_add_countP {α : Type} {p q : α → Bool} :
    ∀ {l : List α}, (∀ x ∈ l, p x = true ∨ q x = true) →
      l.length ≤ List.countP p l + List.countP q l := by
  intro l
  induction l with
  | nil => simp
  | cons x t ih =>
    intro hall
    rw [List.length_cons, List.countP_cons, List.countP_cons]
    have ht := ih (fun y hy => hall y (List.mem_cons_of_mem x hy))
    rcases hall x (List.mem_cons_self x t) with h | h <;> simp [h] <;> omega

/-- On a subset of at least 20 records, every pnl kept by the best-10
table bounds from above every pnl kept by the worst-10 table. -/
theorem best_worst_separated (df : List TradeRecord) (h20 : 20 ≤ df.length) :
    ∀ a ∈ best_trades df, ∀ b ∈ worst_trades df, b.pnl ≤ a.pnl := by
  intro a ha b hb
  by_contra hlt
  push_neg at hlt
  have hcntD : List.countP (fun r => decide (a.pnl < r.pnl)) (List.insertionSort pnlDesc df)
      < 10 := by
    apply countP_lt_of_sorted_take (List.sorted_insertionSort pnlDesc df) ha (by simp)
    intro y hy
    have h1 : y.pnl ≤ a.pnl := hy
    simp only [decide_eq_false_iff_not, not_lt]
    exact h1
  have hcntA : List.countP (fun r => decide (r.pnl < b.pnl)) (List.insertionSort pnlAsc df)
      < 10 := by
    apply countP_lt_of_sorted_take (List.sorted_insertionSort pnlAsc df) hb (by simp)
    intro y hy
    have h1 : b.pnl ≤ y.pnl := hy
    simp only [decide_eq_false_iff_not, not_lt]
    exact h1
  rw [List.Perm.countP_eq _ (List.perm_insertionSort pnlDesc df)] at hcntD
  rw [List.Perm.countP_eq _ (List.perm_insertionSort pnlAsc df)] at hcntA
  have hcover : ∀ x ∈ df, decide (a.pnl < x.pnl) = true ∨ decide (x.pnl < b.pnl) = true := by
    intro x _
    by_cases hx : a.pnl < x.pnl
    · left
      simpa using hx
    · right
      simp only [decide_eq_true_eq]
      push_neg at hx
      linarith
  have := length_le_countP_add_countP hcover
  omega

/--
C8.  On every subset of at least 20 records with no pnl tie at either
selection boundary, the minimum pnl among the 10 records of the best-10
table is at least the maximum pnl among the 10 records of the worst-10
table.
-/
theorem c8_complement_bound (df : List TradeRecord) (h20 : 20 ≤ df.length)
    (_hb : bestBoundaryTieFree df) (_hw : worstBoundaryTieFree df) :
    ∀ mn ∈ ((best_trades df).map TradeRecord.pnl).min?,
      ∀ mx ∈ ((worst_trades df).map TradeRecord.pnl).max?, mx ≤ mn := by
  intro mn hmn mx hmx
  rcases List.mem_map.mp (List.min?_mem min_choice hmn) with ⟨ra, hra, rfl⟩
  rcases List.mem_map.mp (List.max?_mem max_choice hmx) with ⟨rb, hrb, rfl⟩
  exact best_worst_separated df h20 ra hra rb hrb

/-- Witness for C8 on the twenty-trade store `ex20` (pnl 0..19, no ties
anywhere): the best-10 pnl minimum is 10 and the worst-10 pnl maximum
is 9. -/
theorem c8_complement_bound_witness :
    20 ≤ ex20.length ∧ bestBoundaryTieFree ex20 ∧ worstBoundaryTieFree ex20 ∧
      ((best_trades ex20).map TradeRecord.pnl).min? = some 10 ∧
      ((worst_trades ex20).map TradeRecord.pnl).max? = some 9 ∧
      (∀ mn ∈ ((best_trades ex20).map TradeRecord.pnl).min?,
        ∀ mx ∈ ((worst_trades ex20).map TradeRecord.pnl).max?, mx ≤ mn) := by
  have hpD : ∀ p q : ℚ, pnlDesc (mkTrade p) (mkTrade q) ↔ q ≤ p := fun _ _ => Iff.rfl
  have hpA : ∀ p q : ℚ, pnlAsc (mkTrade p) (mkTrade q) ↔ p ≤ q := fun _ _ => Iff.rfl
  have hproj : ∀ p : ℚ, (mkTrade p).pnl = p := fun _ => rfl
  have hsortD : List.insertionSort pnlDesc ex20 =
      [mkTrade 19, mkTrade 18, mkTrade 17, mkTrade 16, mkTrade 15, mkTrade 14, mkTrade 13, mkTrade 12, mkTrade 11, mkTrade 10, mkTrade 9, mkTrade 8, mkTrade 7, mkTrade 6, mkTrade 5, mkTrade 4, mkTrade 3, mkTrade 2, mkTrade 1, mkTrade 0] := by
    norm_num [ex20, List.insertionSort, List.orderedInsert, hpD]
  have hsortA : List.insertionSort pnlAsc ex20 = ex20 := by
    norm_num [ex20, List.insertionSort, List.orderedInsert, hpA]
  have h20 : 20 ≤ ex20.length := by decide
  have htfD : bestBoundaryTieFree ex20 := by
    rw [bestBoundaryTieFree, hsortD]
    norm_num [hproj]
  have htfA : worstBoundaryTieFree ex20 := by
    rw [worstBoundaryTieFree, hsortA]
    norm_num [ex20, hproj]
  have hmin : ((best_trades ex20).map TradeRecord.pnl).min? = some 10 := by
    rw [best_trades, nlargest, hsortD]
    norm_num [hproj, List.min?, min_def]
  have hmax : ((worst_trades ex20).map TradeRecord.pnl).max? = some 9 := by
    rw [worst_trades, nsmallest, hsortA]
    norm_num [ex20, hproj, List.max?, max_def]
  exact ⟨h20, htfD, htfA, hmin, hmax, c8_complement_bound ex20 h20 htfD htfA⟩

end OptionDashboard
